import Mathlib

/-!
Verification of the YouTube transcript extractor (`src/main.py`).

The development shallowly embeds the pure decision logic of the program:
the transcript selection cascade of `YouTubeTranscriptExtractor.get_transcript`,
the formatting pipeline of `format_transcript`, the timestamp conversion of
`seconds_to_timestamp`, the chunk slicing, and the output-filename logic of
`main` / `save_to_file`.

Strings are modelled as `List Char`; non-negative real "seconds" values are
modelled as rationals; Python's `//` and `%` on numbers are modelled with
`Int.floor`.  The external transcript provider (`youtube_transcript_api`) is an
external collaborator: the catalog it would return is taken as an input, and
its per-language lookup functions are modelled from the specification of the
provider contract.
-/

/-- One timed transcript entry as returned by the provider: a start time in
seconds, a duration, and the caption text. -/
structure TranscriptEntry where
  start : ℚ
  duration : ℚ
  text : List Char
deriving DecidableEq

/-- One transcript track of the catalog: language name, language code, whether
it is auto-generated, and its timed entries. -/
structure TranscriptTrack where
  language : String
  language_code : String
  is_generated : Bool
  entries : List TranscriptEntry
deriving DecidableEq

/-- Modelled from the spec: the provider's `find_manually_created_transcript`
for a single requested code — the first manually created track
(`is_generated = false`) whose language code exactly equals the requested
code, `none` standing for the provider's "not found" error.  The provider
library itself is an external collaborator, not part of `src/`. -/
def find_manually_created_transcript (tl : List TranscriptTrack) (lang : String) :
    Option TranscriptTrack :=
  tl.find? fun t => !t.is_generated && t.language_code == lang

/-- Modelled from the spec: the provider's `find_generated_transcript` for a
single requested code — the first auto-generated track whose language code
exactly equals the requested code, `none` standing for "not found". -/
def find_generated_transcript (tl : List TranscriptTrack) (lang : String) :
    Option TranscriptTrack :=
  tl.find? fun t => t.is_generated && t.language_code == lang

/-- Modelled from the spec: the provider's `find_transcript(['en'])` — any
track matching the code "en" under the provider's own possibly locale-fuzzy
rule, which also accepts regional variants such as "en-US". -/
def find_transcript_en (tl : List TranscriptTrack) : Option TranscriptTrack :=
  tl.find? fun t => t.language_code == "en" || "en-".toList.isPrefixOf t.language_code.toList

/-- The first `for lang in languages` loop of `get_transcript` (src/main.py
lines 39-44): each attempt asks the provider for a manually created track of
that exact code; a per-attempt failure (`except: continue`) moves on to the
next preference entry.  On success the loop returns the track together with
the preference entry that matched. -/
def manualScan (tl : List TranscriptTrack) : List String → Option (TranscriptTrack × String)
  | [] => none
  | lang :: rest =>
    match find_manually_created_transcript tl lang with
    | some t => some (t, lang)
    | none => manualScan tl rest

/-- The second `for lang in languages` loop of `get_transcript` (src/main.py
lines 47-52), identical in shape but asking for auto-generated tracks. -/
def generatedScan (tl : List TranscriptTrack) : List String → Option (TranscriptTrack × String)
  | [] => none
  | lang :: rest =>
    match find_generated_transcript tl lang with
    | some t => some (t, lang)
    | none => generatedScan tl rest

/-- `YouTubeTranscriptExtractor.get_transcript` (src/main.py lines 32-68),
given the catalog the provider returned for the video.  The result carries the
selected track (whose `entries` are what `transcript.fetch()` returns), the
reported language string, and the provenance tag.  The only failure, an empty
catalog after all cascade steps missed, raises
`Exception("No transcripts available")`, which the enclosing handler re-raises
as `Error fetching transcript: ...`. -/
def get_transcript (tl : List TranscriptTrack) (languages : List String) :
    Except String (TranscriptTrack × String × String) :=
  match manualScan tl languages with
  | some (t, lang) => .ok (t, lang, "manual")
  | none =>
    match generatedScan tl languages with
    | some (t, lang) => .ok (t, lang, "auto-generated")
    | none =>
      match find_transcript_en tl with
      | some t => .ok (t, "en", "fallback")
      | none =>
        match tl with
        | t :: _ => .ok (t, t.language_code, "available")
        | [] => .error "Error fetching transcript: No transcripts available"

/-- A manual Spanish track, used in concrete scenarios. -/
def esManual : TranscriptTrack := ⟨"Spanish", "es", false, []⟩

/-- An auto-generated English track, used in concrete scenarios. -/
def enGenerated : TranscriptTrack := ⟨"English", "en", true, []⟩

/-- A manual regional-variant English track, used in concrete scenarios. -/
def enUSManual : TranscriptTrack := ⟨"English (United States)", "en-US", false, []⟩

/-- The whitespace class shared by Python's `str.strip` and the regex `\s`
(ASCII range, as produced by the provider's caption text). -/
def isPySpace (c : Char) : Bool :=
  c == ' ' || c == '\t' || c == '\n' || c == '\r' || c == '\x0b' || c == '\x0c'

/-- Python's `str.strip()`: remove leading and trailing whitespace. -/
def pyStrip (s : List Char) : List Char :=
  ((s.dropWhile isPySpace).reverse.dropWhile isPySpace).reverse

/-- The substitution `re.sub(r'\s+', ' ', s)` of `format_transcript`, every
maximal run of whitespace characters becoming a single space; the flag records
whether the previous character belonged to an already-replaced whitespace
run. -/
def collapseWSFrom (inRun : Bool) : List Char → List Char
  | [] => []
  | c :: rest =>
    if isPySpace c then
      if inRun then collapseWSFrom true rest
      else ' ' :: collapseWSFrom true rest
    else c :: collapseWSFrom false rest

/-- `re.sub(r'\s+', ' ', s)` applied to a whole string. -/
def collapseWS (s : List Char) : List Char := collapseWSFrom false s

/-- Python's `sep.join(parts)`. -/
def joinWith (sep : List Char) : List (List Char) → List Char
  | [] => []
  | [l] => l
  | l :: ls => l ++ sep ++ joinWith sep ls

/-- Python's `int(q)` on a number: truncation toward zero. -/
def pyint (q : ℚ) : ℤ :=
  if 0 ≤ q then ⌊q⌋ else -⌊-q⌋

/-- Python's `a // b` on numbers: floor division (the value is an integer but
keeps the numeric type of its operands). -/
def pyfloordiv (a b : ℚ) : ℚ :=
  ((⌊a / b⌋ : ℤ) : ℚ)

/-- Python's `a % b` on numbers: `a - b * (a // b)`, the remainder of floor
division. -/
def pymod (a b : ℚ) : ℚ :=
  a - b * ((⌊a / b⌋ : ℤ) : ℚ)

/-- The f-string field `{z:02d}`: decimal rendering padded with a leading zero
to a minimum width of two characters. -/
def pad2 (z : ℤ) : List Char :=
  if z < 0 then '-' :: Nat.toDigits 10 z.natAbs
  else if z < 10 then '0' :: Nat.toDigits 10 z.toNat
  else Nat.toDigits 10 z.toNat

/-- `YouTubeTranscriptExtractor.seconds_to_timestamp` (src/main.py lines
92-101): hours, minutes and seconds from `//` and `%`, truncated with `int`,
rendered `HH:MM:SS` when hours are positive and `MM:SS` otherwise. -/
def seconds_to_timestamp (seconds : ℚ) : List Char :=
  let hours : ℤ := pyint (pyfloordiv seconds 3600)
  let minutes : ℤ := pyint (pyfloordiv (pymod seconds 3600) 60)
  let secs : ℤ := pyint (pymod seconds 60)
  if 0 < hours then pad2 hours ++ ':' :: pad2 minutes ++ ':' :: pad2 secs
  else pad2 minutes ++ ':' :: pad2 secs

/-- Decimal rendering of a natural number padded to width two, the
`Nat`-valued counterpart of `pad2`. -/
def pad2n (n : ℕ) : List Char :=
  if n < 10 then '0' :: Nat.toDigits 10 n else Nat.toDigits 10 n

/-- The specification's timestamp conversion, stated on whole seconds exactly
as the spec words it: `hours = s / 3600`, `minutes = (s % 3600) / 60`,
`seconds = s % 60`, `HH:MM:SS` when hours are positive and `MM:SS` otherwise,
all fields zero-padded to two digits.  Kept separate from
`seconds_to_timestamp` so the code's rational arithmetic can be compared
against it. -/
def specTimestamp (n : ℕ) : List Char :=
  let hours := n / 3600
  let minutes := (n % 3600) / 60
  let secs := n % 60
  if 0 < hours then pad2n hours ++ ':' :: pad2n minutes ++ ':' :: pad2n secs
  else pad2n minutes ++ ':' :: pad2n secs

/-- Python's `range(start, stop, step)` for a nonzero step (a zero step, which
would raise `ValueError`, yields the empty list here; the program never calls
it with zero). -/
def pyRange (start stop step : Int) : List Int :=
  if _h1 : 0 < step then
    if _h2 : start < stop then start :: pyRange (start + step) stop step else []
  else if _h3 : step < 0 then
    if _h4 : stop < start then start :: pyRange (start + step) stop step else []
  else []
termination_by (if 0 < step then stop - start else start - stop).toNat
decreasing_by
  all_goals omega

/-- Python's slice `s[a:b]` (unit step): both bounds are clamped, negative
bounds count from the end. -/
def pySlice (s : List Char) (a b : Int) : List Char :=
  let n : Int := s.length
  let lo : Int := if a < 0 then max (n + a) 0 else min a n
  let hi : Int := if b < 0 then max (n + b) 0 else min b n
  (s.drop lo.toNat).take (hi - lo).toNat

/-- The comprehension `[result[i:i+chunk_size] for i in range(0, len(result),
chunk_size)]` of `format_transcript` (src/main.py line 87). -/
def pyChunks (chunk_size : Int) (s : List Char) : List (List Char) :=
  (pyRange 0 s.length chunk_size).map fun i => pySlice s i (i + chunk_size)

/-- The specification's chunking: consecutive, non-overlapping slices of
exactly `k` characters in left-to-right order, the final slice possibly
shorter.  Kept separate from `pyChunks` so the code's slice arithmetic can be
compared against it. -/
def chunksOf (k : ℕ) (s : List Char) : List (List Char) :=
  if s.length = 0 ∨ k = 0 then [] else s.take k :: chunksOf k (s.drop k)
termination_by s.length
decreasing_by
  simp only [List.length_drop]
  omega

/-- The formatter's output: a single string, or the ordered chunk sequence. -/
inductive FormattedOutput where
  | str : List Char → FormattedOutput
  | chunks : List (List Char) → FormattedOutput
deriving DecidableEq

/-- `YouTubeTranscriptExtractor.format_transcript` (src/main.py lines 70-90).
With timestamps: one `"[T] text"` line per entry joined by newlines.  Without:
the trimmed texts joined by single spaces, whitespace runs collapsed, then
stripped.  `chunk_size` follows Python truthiness (`None` and `0` disable
chunking), and chunking applies only when timestamps are off. -/
def format_transcript (transcript_data : List TranscriptEntry)
    (include_timestamps : Bool) (chunk_size : Option Int) : FormattedOutput :=
  let result : List Char :=
    if include_timestamps then
      joinWith ['\n'] (transcript_data.map fun entry =>
        '[' :: (seconds_to_timestamp entry.start ++ ']' :: ' ' :: pyStrip entry.text))
    else
      pyStrip (collapseWS (joinWith [' '] (transcript_data.map fun entry => pyStrip entry.text)))
  match chunk_size with
  | some cs =>
    if cs ≠ 0 ∧ include_timestamps = false then .chunks (pyChunks cs result)
    else .str result
  | none => .str result

/-- Decimal digits of a natural number, the model of Python's str(i). -/
def natChars (n : ℕ) : List Char :=
  Nat.toDigits 10 n

/-- Python's `s.rfind(c)`: index of the last occurrence, `-1` when absent. -/
def rfindChar (c : Char) (s : List Char) : Int :=
  match s.reverse.findIdx? (· == c) with
  | some j => (s.length : Int) - 1 - j
  | none => -1

/-- `os.path.splitext` (posix rules): split off the extension at the last dot,
unless that dot only leads the basename (no extension also when the last dot
precedes the last slash or the basename up to it is all dots). -/
def splitext (p : List Char) : List Char × List Char :=
  let sepIndex := rfindChar '/' p
  let dotIndex := rfindChar '.' p
  if sepIndex < dotIndex then
    let stem := (p.take dotIndex.toNat).drop (sepIndex + 1).toNat
    if stem.any (fun c => c != '.') then (p.take dotIndex.toNat, p.drop dotIndex.toNat)
    else (p, [])
  else (p, [])

/-- The default chunk filename of `main` (src/main.py line 186):
`transcript_chunk_{i}_{video_id}.txt`. -/
def default_chunk_filename (i : ℕ) (video_id : List Char) : List Char :=
  "transcript_chunk_".toList ++ natChars i ++ '_' :: (video_id ++ ".txt".toList)

/-- The filename `main` passes to `save_to_file` for chunk `i` (1-based) of
`numChunks` chunks (src/main.py lines 185-189): the explicit `-o` path when
given (Python's `or` also rejects an empty string), else the default chunk
name; when more than one chunk exists, `_chunk_{i}` is inserted before the
`os.path.splitext` extension of that name. -/
def chunk_filename (output : Option (List Char)) (video_id : List Char)
    (numChunks i : ℕ) : List Char :=
  let filename : List Char :=
    match output with
    | some o => if o.isEmpty then default_chunk_filename i video_id else o
    | none => default_chunk_filename i video_id
  if 1 < numChunks then
    (splitext filename).1 ++ "_chunk_".toList ++ (natChars i ++ (splitext filename).2)
  else filename

/-- The filename `YouTubeTranscriptExtractor.save_to_file` writes to
(src/main.py lines 103-107), with the second-resolution capture-time
timestamp string passed in: the explicit name when given and non-empty, else
`youtube_transcript_{video_id}_{timestamp}.txt`. -/
def save_to_file_name (filename : Option (List Char)) (video_id now : List Char) : List Char :=
  match filename with
  | some f =>
    if f.isEmpty then "youtube_transcript_".toList ++ video_id ++ '_' :: (now ++ ".txt".toList)
    else f
  | none => "youtube_transcript_".toList ++ video_id ++ '_' :: (now ++ ".txt".toList)

/-- The default-argument object of `get_transcript` and
`extract_youtube_transcript` (`languages=['en']`), evaluated once when the
function is defined and shared by every defaulted call. -/
def defaultLanguages : List String := ["en"]

/-- A call to `get_transcript` with the `languages` argument omitted: the
shared default object is passed, and the pair also returns that object's state
after the call — the cascade only ever reads the list (two `for` loops), so
the state comes back unchanged. -/
def get_transcript_defaulted (tl : List TranscriptTrack) (d : List String) :
    Except String (TranscriptTrack × String × String) × List String :=
  (get_transcript tl d, d)

/-- The value object returned by the programmatic entry point
`extract_youtube_transcript` (src/main.py lines 232-237). -/
structure ExtractResult where
  text : FormattedOutput
  language : String
  source : String
  video_id : String
deriving DecidableEq

/-- `extract_youtube_transcript` (src/main.py lines 207-239) after the video
id has been resolved and the provider has returned the catalog: run the
cascade, format, and package the value object; a cascade error is re-raised
wrapped in `Failed to extract transcript: ...`. -/
def extract_youtube_transcript (video_id : String) (tl : List TranscriptTrack)
    (languages : List String) (include_timestamps : Bool) (chunk_size : Option Int) :
    Except String ExtractResult :=
  match get_transcript tl languages with
  | .ok (t, lang, src) =>
    .ok ⟨format_transcript t.entries include_timestamps chunk_size, lang, src, video_id⟩
  | .error e => .error ("Failed to extract transcript: " ++ e)

/-- A call to `extract_youtube_transcript` with its `languages` argument
omitted, threading the shared default object's state as in
`get_transcript_defaulted`. -/
def extract_youtube_transcript_defaulted (video_id : String) (tl : List TranscriptTrack)
    (d : List String) : Except String ExtractResult × List String :=
  (extract_youtube_transcript video_id tl d false none, d)

theorem manualScan_eq_none_of_find_none (tl : List TranscriptTrack) (lang : String)
    (h : find_manually_created_transcript tl lang = none) (pre post : List String) :
    manualScan tl (pre ++ lang :: post) = manualScan tl (pre ++ post) := by
  induction pre with
  | nil => simp [manualScan, h]
  | cons p pre ih =>
    simp only [List.cons_append, manualScan]
    cases find_manually_created_transcript tl p with
    | some t => rfl
    | none => exact ih

theorem generatedScan_eq_none_of_find_none (tl : List TranscriptTrack) (lang : String)
    (h : find_generated_transcript tl lang = none) (pre post : List String) :
    generatedScan tl (pre ++ lang :: post) = generatedScan tl (pre ++ post) := by
  induction pre with
  | nil => simp [generatedScan, h]
  | cons p pre ih =>
    simp only [List.cons_append, generatedScan]
    cases find_generated_transcript tl p with
    | some t => rfl
    | none => exact ih

theorem manualScan_nil_catalog (langs : List String) : manualScan [] langs = none := by
  induction langs with
  | nil => rfl
  | cons lang rest ih => simp [manualScan, find_manually_created_transcript, ih]

theorem generatedScan_nil_catalog (langs : List String) : generatedScan [] langs = none := by
  induction langs with
  | nil => rfl
  | cons lang rest ih => simp [generatedScan, find_generated_transcript, ih]

/-- Claim C1: the selection cascade picks its result by strict priority —
first the manual scan over the preference list, then (only if the whole manual
scan missed) the generated scan, then the English-equivalent fallback, then an
arbitrary catalog track, each with its provenance tag; and in particular a
catalog with a manual "es" track and a generated "en" track under preference
["en", "es"] yields the manual "es" track tagged "manual". -/
theorem cascade_strict_priority (tl : List TranscriptTrack) (langs : List String) :
    (∀ t lang, manualScan tl langs = some (t, lang) →
      get_transcript tl langs = .ok (t, lang, "manual")) ∧
    (manualScan tl langs = none → ∀ t lang, generatedScan tl langs = some (t, lang) →
      get_transcript tl langs = .ok (t, lang, "auto-generated")) ∧
    (manualScan tl langs = none → generatedScan tl langs = none →
      ∀ t, find_transcript_en tl = some t →
      get_transcript tl langs = .ok (t, "en", "fallback")) ∧
    (manualScan tl langs = none → generatedScan tl langs = none →
      find_transcript_en tl = none → ∀ t rest, tl = t :: rest →
      get_transcript tl langs = .ok (t, t.language_code, "available")) ∧
    get_transcript [enGenerated, esManual] ["en", "es"] = .ok (esManual, "es", "manual") := by
  refine ⟨?_, ?_, ?_, ?_, ?_⟩
  · intro t lang h; simp [get_transcript, h]
  · intro hm t lang h; simp [get_transcript, hm, h]
  · intro hm hg t h; simp [get_transcript, hm, hg, h]
  · intro hm hg he t rest htl; subst htl; simp [get_transcript, hm, hg, he]
  · rfl

/-- Witness for C1: the first cascade rule applied at a concrete catalog and
preference list, with its hypothesis discharged by evaluation. -/
theorem cascade_strict_priority_witness :
    get_transcript [enGenerated, esManual] ["en", "es"] = .ok (esManual, "es", "manual") :=
  (cascade_strict_priority [enGenerated, esManual] ["en", "es"]).1 esManual "es" (by decide)

/-- Claim C2: the cascade fails (with the "no transcripts available" error the
top of `get_transcript` wraps) exactly when the catalog is empty; whenever
some track exists it returns a track. -/
theorem cascade_error_iff_empty (tl : List TranscriptTrack) (langs : List String) :
    get_transcript tl langs = .error "Error fetching transcript: No transcripts available"
      ↔ tl = [] := by
  constructor
  · intro h
    cases htl : tl with
    | nil => rfl
    | cons t rest =>
      subst htl
      unfold get_transcript at h
      cases hm : manualScan (t :: rest) langs with
      | some p => simp [hm] at h
      | none =>
        cases hg : generatedScan (t :: rest) langs with
        | some p => simp [hm, hg] at h
        | none =>
          cases he : find_transcript_en (t :: rest) with
          | some u => simp [hm, hg, he] at h
          | none => simp [hm, hg, he] at h
  · intro h
    subst h
    simp [get_transcript, manualScan_nil_catalog, generatedScan_nil_catalog, find_transcript_en]

/-- Witness for C2: on the empty catalog the cascade produces exactly the
wrapped "no transcripts available" error. -/
theorem cascade_error_iff_empty_witness :
    get_transcript [] ["en"] = .error "Error fetching transcript: No transcripts available" :=
  (cascade_error_iff_empty [] ["en"]).mpr rfl

/-- Claim C3: a provider-side "not found" failure while attempting one
preference entry (the per-attempt `except: continue`) only skips that entry:
each scan, and the whole cascade, behaves as if the entry were absent, so no
per-attempt failure aborts the cascade. -/
theorem cascade_attempt_failure_skips (tl : List TranscriptTrack) (pre post : List String)
    (lang : String) (hm : find_manually_created_transcript tl lang = none)
    (hg : find_generated_transcript tl lang = none) :
    manualScan tl (pre ++ lang :: post) = manualScan tl (pre ++ post) ∧
    generatedScan tl (pre ++ lang :: post) = generatedScan tl (pre ++ post) ∧
    get_transcript tl (pre ++ lang :: post) = get_transcript tl (pre ++ post) := by
  refine ⟨manualScan_eq_none_of_find_none tl lang hm pre post,
    generatedScan_eq_none_of_find_none tl lang hg pre post, ?_⟩
  unfold get_transcript
  rw [manualScan_eq_none_of_find_none tl lang hm pre post,
    generatedScan_eq_none_of_find_none tl lang hg pre post]

/-- Witness for C3: a preference entry ("de") with no matching track in the
concrete catalog is skipped: the cascade on ["fr", "de", "es"] equals the
cascade on ["fr", "es"]. -/
theorem cascade_attempt_failure_skips_witness :
    get_transcript [enGenerated, esManual] (["fr"] ++ "de" :: ["es"]) =
      get_transcript [enGenerated, esManual] (["fr"] ++ ["es"]) :=
  (cascade_attempt_failure_skips [enGenerated, esManual] ["fr"] ["es"] "de"
    (by decide) (by decide)).2.2

theorem manualScan_some_mem (tl : List TranscriptTrack) (langs : List String)
    (t : TranscriptTrack) (lang : String) (h : manualScan tl langs = some (t, lang)) :
    lang ∈ langs ∧ t.language_code = lang := by
  induction langs with
  | nil => simp [manualScan] at h
  | cons l rest ih =>
    rw [manualScan] at h
    cases hf : find_manually_created_transcript tl l with
    | some u =>
      rw [hf] at h
      obtain ⟨hu, hl⟩ : u = t ∧ l = lang := by simpa using h
      subst hu; subst hl
      have := List.find?_some hf
      simp only [Bool.and_eq_true, beq_iff_eq] at this
      exact ⟨List.mem_cons_self _ _, this.2⟩
    | none =>
      rw [hf] at h
      obtain ⟨h1, h2⟩ := ih h
      exact ⟨List.mem_cons_of_mem _ h1, h2⟩

theorem generatedScan_some_mem (tl : List TranscriptTrack) (langs : List String)
    (t : TranscriptTrack) (lang : String) (h : generatedScan tl langs = some (t, lang)) :
    lang ∈ langs ∧ t.language_code = lang := by
  induction langs with
  | nil => simp [generatedScan] at h
  | cons l rest ih =>
    rw [generatedScan] at h
    cases hf : find_generated_transcript tl l with
    | some u =>
      rw [hf] at h
      obtain ⟨hu, hl⟩ : u = t ∧ l = lang := by simpa using h
      subst hu; subst hl
      have := List.find?_some hf
      simp only [Bool.and_eq_true, beq_iff_eq] at this
      exact ⟨List.mem_cons_self _ _, this.2⟩
    | none =>
      rw [hf] at h
      obtain ⟨h1, h2⟩ := ih h
      exact ⟨List.mem_cons_of_mem _ h1, h2⟩

theorem get_transcript_ok_cases (tl : List TranscriptTrack) (langs : List String)
    (t : TranscriptTrack) (lang tag : String)
    (h : get_transcript tl langs = .ok (t, lang, tag)) :
    (tag = "manual" ∧ manualScan tl langs = some (t, lang)) ∨
    (tag = "auto-generated" ∧ generatedScan tl langs = some (t, lang)) ∨
    (tag = "fallback" ∧ lang = "en" ∧ find_transcript_en tl = some t) ∨
    (tag = "available" ∧ lang = t.language_code) := by
  unfold get_transcript at h
  cases hm : manualScan tl langs with
  | some p =>
    obtain ⟨t0, lang0⟩ := p
    rw [hm] at h
    obtain ⟨h1, h2, h3⟩ : t0 = t ∧ lang0 = lang ∧ "manual" = tag := by simpa using h
    subst h1; subst h2; subst h3
    exact Or.inl ⟨rfl, rfl⟩
  | none =>
    rw [hm] at h
    cases hg : generatedScan tl langs with
    | some p =>
      obtain ⟨t0, lang0⟩ := p
      rw [hg] at h
      obtain ⟨h1, h2, h3⟩ : t0 = t ∧ lang0 = lang ∧ "auto-generated" = tag := by simpa using h
      subst h1; subst h2; subst h3
      exact Or.inr (Or.inl ⟨rfl, rfl⟩)
    | none =>
      rw [hg] at h
      cases he : find_transcript_en tl with
      | some u =>
        rw [he] at h
        obtain ⟨h1, h2, h3⟩ : u = t ∧ "en" = lang ∧ "fallback" = tag := by simpa using h
        subst h1; subst h2; subst h3
        exact Or.inr (Or.inr (Or.inl ⟨rfl, rfl, rfl⟩))
      | none =>
        rw [he] at h
        cases tl with
        | nil => simp at h
        | cons t0 rest =>
          obtain ⟨h1, h2, h3⟩ : t0 = t ∧ t0.language_code = lang ∧ "available" = tag := by
            simpa using h
          subst h1; subst h3
          exact Or.inr (Or.inr (Or.inr ⟨rfl, h2.symm⟩))

/-- Claim C10: the language reported with a chosen track is the matched
preference entry in cascade steps 1 and 2 (which exact matching forces to
equal the track's code), the literal "en" in the English-equivalent fallback
even when the matched track's own code is a regional variant such as "en-US",
and the chosen track's own `language_code` only in the availability step; in
particular a lone manual "en-US" track under preference ["de"] is reported as
language "en" with tag "fallback". -/
theorem cascade_reported_language (tl : List TranscriptTrack) (langs : List String) :
    (∀ t lang, get_transcript tl langs = .ok (t, lang, "manual") →
      lang ∈ langs ∧ t.language_code = lang) ∧
    (∀ t lang, get_transcript tl langs = .ok (t, lang, "auto-generated") →
      lang ∈ langs ∧ t.language_code = lang) ∧
    (∀ t lang, get_transcript tl langs = .ok (t, lang, "fallback") → lang = "en") ∧
    (∀ t lang, get_transcript tl langs = .ok (t, lang, "available") →
      lang = t.language_code) ∧
    get_transcript [enUSManual] ["de"] = .ok (enUSManual, "en", "fallback") ∧
    enUSManual.language_code = "en-US" := by
  refine ⟨?_, ?_, ?_, ?_, by rfl, by rfl⟩
  · intro t lang h
    rcases get_transcript_ok_cases tl langs t lang "manual" h with
      ⟨_, hm⟩ | ⟨htag, _⟩ | ⟨htag, _⟩ | ⟨htag, _⟩
    · exact manualScan_some_mem tl langs t lang hm
    all_goals exact absurd htag (by decide)
  · intro t lang h
    rcases get_transcript_ok_cases tl langs t lang "auto-generated" h with
      ⟨htag, _⟩ | ⟨_, hg⟩ | ⟨htag, _⟩ | ⟨htag, _⟩
    · exact absurd htag (by decide)
    · exact generatedScan_some_mem tl langs t lang hg
    all_goals exact absurd htag (by decide)
  · intro t lang h
    rcases get_transcript_ok_cases tl langs t lang "fallback" h with
      ⟨htag, _⟩ | ⟨htag, _⟩ | ⟨_, hen, _⟩ | ⟨htag, _⟩
    · exact absurd htag (by decide)
    · exact absurd htag (by decide)
    · exact hen
    · exact absurd htag (by decide)
  · intro t lang h
    rcases get_transcript_ok_cases tl langs t lang "available" h with
      ⟨htag, _⟩ | ⟨htag, _⟩ | ⟨htag, _⟩ | ⟨_, hl⟩
    · exact absurd htag (by decide)
    · exact absurd htag (by decide)
    · exact absurd htag (by decide)
    · exact hl

/-- Witness for C10: the manual-step rule applied at a concrete catalog where
the cascade picks the manual "es" track, its hypothesis discharged by
evaluating the cascade. -/
theorem cascade_reported_language_witness :
    "es" ∈ ["en", "es"] ∧ esManual.language_code = "es" :=
  (cascade_reported_language [enGenerated, esManual] ["en", "es"]).1 esManual "es" (by rfl)

/-- Claim C9: defaulted calls to the transcript-fetching entry points share no
state through the default preference list: the default is the single-element
["en"], a defaulted call returns the default object unchanged, and a second
defaulted call returns the same result. -/
theorem defaulted_calls_share_no_state (tl : List TranscriptTrack) (vid : String) :
    defaultLanguages = ["en"] ∧
    (get_transcript_defaulted tl defaultLanguages).2 = defaultLanguages ∧
    (get_transcript_defaulted tl (get_transcript_defaulted tl defaultLanguages).2).1 =
      (get_transcript_defaulted tl defaultLanguages).1 ∧
    (get_transcript_defaulted tl defaultLanguages).1 = get_transcript tl ["en"] ∧
    (extract_youtube_transcript_defaulted vid tl defaultLanguages).2 = defaultLanguages ∧
    (extract_youtube_transcript_defaulted vid tl
      (extract_youtube_transcript_defaulted vid tl defaultLanguages).2).1 =
      (extract_youtube_transcript_defaulted vid tl defaultLanguages).1 :=
  ⟨rfl, rfl, rfl, rfl, rfl, rfl⟩

theorem pyint_intCast (k : ℤ) : pyint ((k : ℤ) : ℚ) = k := by
  unfold pyint
  by_cases h : (0:ℚ) ≤ (k:ℚ)
  · rw [if_pos h, Int.floor_intCast]
  · rw [if_neg h]
    rw [show (-(k:ℚ)) = ((-k : ℤ) : ℚ) by push_cast; ring, Int.floor_intCast, neg_neg]

theorem pyint_of_nonneg (q : ℚ) (h : 0 ≤ q) : pyint q = ⌊q⌋ := by
  unfold pyint
  rw [if_pos h]

theorem floor_div_natCast (s : ℚ) (m : ℕ) (hm : 0 < m) :
    ⌊s / ((m : ℕ) : ℚ)⌋ = ⌊s⌋ / ((m : ℕ) : ℤ) := by
  have hm' : (0:ℚ) < ((m:ℕ):ℚ) := by exact_mod_cast hm
  have hmz : ((m:ℕ):ℤ) ≠ 0 := by exact_mod_cast hm.ne'
  rw [Int.floor_eq_iff]
  constructor
  · rw [le_div_iff₀ hm']
    have h1 : (⌊s⌋ / ((m:ℕ):ℤ)) * ((m:ℕ):ℤ) ≤ ⌊s⌋ := Int.ediv_mul_le ⌊s⌋ hmz
    calc ((⌊s⌋ / ((m:ℕ):ℤ) : ℤ) : ℚ) * ((m:ℕ):ℚ)
        = (((⌊s⌋ / ((m:ℕ):ℤ)) * ((m:ℕ):ℤ) : ℤ) : ℚ) := by push_cast; ring
      _ ≤ ((⌊s⌋ : ℤ) : ℚ) := by exact_mod_cast h1
      _ ≤ s := Int.floor_le s
  · rw [div_lt_iff₀ hm']
    have h2 : ⌊s⌋ < (⌊s⌋ / ((m:ℕ):ℤ) + 1) * ((m:ℕ):ℤ) :=
      Int.lt_ediv_add_one_mul_self ⌊s⌋ (by exact_mod_cast hm)
    calc s < ((⌊s⌋ : ℤ) : ℚ) + 1 := Int.lt_floor_add_one s
      _ ≤ (((⌊s⌋ / ((m:ℕ):ℤ) + 1) * ((m:ℕ):ℤ) : ℤ) : ℚ) := by
          exact_mod_cast Int.add_one_le_iff.mpr h2
      _ = (((⌊s⌋ / ((m:ℕ):ℤ) : ℤ) : ℚ) + 1) * ((m:ℕ):ℚ) := by push_cast; ring

theorem floor_pymod_natCast (s : ℚ) (m : ℕ) (hm : 0 < m) :
    ⌊pymod s ((m : ℕ) : ℚ)⌋ = ⌊s⌋ % ((m : ℕ) : ℤ) := by
  unfold pymod
  rw [show ((m:ℕ):ℚ) * ((⌊s / ((m:ℕ):ℚ)⌋ : ℤ) : ℚ)
        = ((((m:ℕ):ℤ) * ⌊s / ((m:ℕ):ℚ)⌋ : ℤ) : ℚ) by push_cast; ring,
    Int.floor_sub_int, floor_div_natCast s m hm, Int.emod_def]

theorem pymod_nonneg_of_pos (s : ℚ) (m : ℕ) (hm : 0 < m) : 0 ≤ pymod s ((m : ℕ) : ℚ) := by
  unfold pymod
  have hm' : (0:ℚ) < ((m:ℕ):ℚ) := by exact_mod_cast hm
  have h1 : ((⌊s / ((m:ℕ):ℚ)⌋ : ℤ) : ℚ) ≤ s / ((m:ℕ):ℚ) := Int.floor_le _
  have h2 : ((m:ℕ):ℚ) * ((⌊s / ((m:ℕ):ℚ)⌋ : ℤ) : ℚ) ≤ ((m:ℕ):ℚ) * (s / ((m:ℕ):ℚ)) :=
    mul_le_mul_of_nonneg_left h1 hm'.le
  have h3 : ((m:ℕ):ℚ) * (s / ((m:ℕ):ℚ)) = s := by field_simp
  linarith

theorem pad2_natCast (k : ℕ) : pad2 ((k : ℕ) : ℤ) = pad2n k := by
  unfold pad2 pad2n
  rw [if_neg (by omega), Int.toNat_natCast]
  by_cases hk : k < 10
  · rw [if_pos (by exact_mod_cast hk), if_pos hk]
  · rw [if_neg (by exact_mod_cast hk), if_neg hk]

theorem timestamp_hours_eq (s : ℚ) (hs : 0 ≤ s) :
    pyint (pyfloordiv s 3600) = ((⌊s⌋.toNat / 3600 : ℕ) : ℤ) := by
  unfold pyfloordiv
  rw [pyint_intCast]
  have h := floor_div_natCast s 3600 (by norm_num)
  norm_num at h
  rw [h]
  have hn : ⌊s⌋ = ((⌊s⌋.toNat : ℕ) : ℤ) := (Int.toNat_of_nonneg (Int.floor_nonneg.mpr hs)).symm
  rw [hn]
  push_cast [Int.ofNat_ediv]
  norm_num

theorem timestamp_minutes_eq (s : ℚ) (hs : 0 ≤ s) :
    pyint (pyfloordiv (pymod s 3600) 60) = ((⌊s⌋.toNat % 3600 / 60 : ℕ) : ℤ) := by
  unfold pyfloordiv
  rw [pyint_intCast]
  have h := floor_div_natCast (pymod s 3600) 60 (by norm_num)
  norm_num at h
  rw [h]
  have h2 := floor_pymod_natCast s 3600 (by norm_num)
  norm_num at h2
  rw [h2]
  have hn : ⌊s⌋ = ((⌊s⌋.toNat : ℕ) : ℤ) := (Int.toNat_of_nonneg (Int.floor_nonneg.mpr hs)).symm
  rw [hn]
  push_cast [Int.ofNat_ediv, Int.ofNat_emod]
  norm_num

theorem timestamp_secs_eq (s : ℚ) (hs : 0 ≤ s) :
    pyint (pymod s 60) = ((⌊s⌋.toNat % 60 : ℕ) : ℤ) := by
  have hnn := pymod_nonneg_of_pos s 60 (by norm_num)
  norm_num at hnn
  rw [pyint_of_nonneg _ hnn]
  have h2 := floor_pymod_natCast s 60 (by norm_num)
  norm_num at h2
  rw [h2]
  have hn : ⌊s⌋ = ((⌊s⌋.toNat : ℕ) : ℤ) := (Int.toNat_of_nonneg (Int.floor_nonneg.mpr hs)).symm
  rw [hn]
  push_cast [Int.ofNat_emod]
  norm_num

theorem seconds_to_timestamp_eq_spec (s : ℚ) (hs : 0 ≤ s) :
    seconds_to_timestamp s = specTimestamp ⌊s⌋.toNat := by
  simp only [seconds_to_timestamp, specTimestamp]
  rw [timestamp_hours_eq s hs, timestamp_minutes_eq s hs, timestamp_secs_eq s hs]
  by_cases h : 0 < ⌊s⌋.toNat / 3600
  · rw [if_pos (by exact_mod_cast h), if_pos h, pad2_natCast, pad2_natCast, pad2_natCast]
  · rw [if_neg (by exact_mod_cast h), if_neg h, pad2_natCast, pad2_natCast]

/-- Claim C4: for every non-negative seconds value, the timestamp conversion
truncates to whole seconds and renders `hours = s / 3600`,
`minutes = (s % 3600) / 60`, `seconds = s % 60` as zero-padded `HH:MM:SS`
when hours are positive and `MM:SS` otherwise; in particular 0 maps to
"00:00", 59 to "00:59", 60 to "01:00" and 3661 to "01:01:01". -/
theorem timestamp_conversion_correct :
    (∀ s : ℚ, 0 ≤ s → seconds_to_timestamp s = specTimestamp ⌊s⌋.toNat) ∧
    seconds_to_timestamp 0 = "00:00".toList ∧
    seconds_to_timestamp 59 = "00:59".toList ∧
    seconds_to_timestamp 60 = "01:00".toList ∧
    seconds_to_timestamp 3661 = "01:01:01".toList := by
  refine ⟨seconds_to_timestamp_eq_spec, ?_, ?_, ?_, ?_⟩
  · rw [seconds_to_timestamp_eq_spec 0 (by norm_num),
      show ⌊(0:ℚ)⌋ = 0 by norm_num]
    decide
  · rw [seconds_to_timestamp_eq_spec 59 (by norm_num),
      show ⌊(59:ℚ)⌋ = 59 by norm_num]
    decide
  · rw [seconds_to_timestamp_eq_spec 60 (by norm_num),
      show ⌊(60:ℚ)⌋ = 60 by norm_num]
    decide
  · rw [seconds_to_timestamp_eq_spec 3661 (by norm_num),
      show ⌊(3661:ℚ)⌋ = 3661 by norm_num]
    decide

/-- Witness for C4: the general conversion statement applied at the concrete
input 3661 with its non-negativity hypothesis discharged. -/
theorem timestamp_conversion_correct_witness :
    0 ≤ (3661:ℚ) ∧ seconds_to_timestamp 3661 = specTimestamp ⌊(3661:ℚ)⌋.toNat :=
  ⟨by norm_num, timestamp_conversion_correct.1 3661 (by norm_num)⟩

/-- Claim C5: Plain-mode formatting joins the entries' trimmed texts with
single spaces, collapses every whitespace run to one space, and trims the
result; entries "  hello  " and "world\n" yield "hello world". -/
theorem plain_mode_formatting :
    (∀ entries : List TranscriptEntry, format_transcript entries false none =
      .str (pyStrip (collapseWS (joinWith [' '] (entries.map fun e => pyStrip e.text))))) ∧
    format_transcript [⟨0, 0, "  hello  ".toList⟩, ⟨0, 0, "world\n".toList⟩] false none =
      .str "hello world".toList := by
  constructor
  · intro entries
    rfl
  · decide

theorem head?_dropWhile_not (p : Char → Bool) (l : List Char) (c : Char)
    (h : (l.dropWhile p).head? = some c) : p c = false := by
  induction l with
  | nil => simp [List.dropWhile] at h
  | cons x xs ih =>
    by_cases hx : p x
    · rw [List.dropWhile_cons_of_pos hx] at h
      exact ih h
    · rw [List.dropWhile_cons_of_neg hx] at h
      obtain rfl : x = c := by simpa using h
      simpa using hx

theorem pyStrip_getLast_not_space (l : List Char) (c : Char)
    (h : (pyStrip l).getLast? = some c) : isPySpace c = false := by
  unfold pyStrip at h
  rw [List.getLast?_reverse] at h
  exact head?_dropWhile_not _ _ _ h

theorem joinWith_ne_nil (sep : List Char) (l : List Char) (ls : List (List Char))
    (hl : l ≠ []) : joinWith sep (l :: ls) ≠ [] := by
  cases ls with
  | nil => simpa [joinWith] using hl
  | cons l2 ls2 => simp [joinWith, List.append_eq_nil, hl]

theorem line_getLast_exists (ts st : List Char)
    (hst : ∀ c0, st.getLast? = some c0 → isPySpace c0 = false) :
    ∃ c, ('[' :: (ts ++ ']' :: ' ' :: st)).getLast? = some c ∧ c ≠ '\n' := by
  cases hlast : st.getLast? with
  | some c0 =>
    refine ⟨c0, ?_, ?_⟩
    · rw [show ('[' :: (ts ++ ']' :: ' ' :: st)) = (('[' :: ts) ++ [']', ' ']) ++ st by simp,
        List.getLast?_append, hlast, Option.or_some]
    · have hns := hst c0 hlast
      intro hc
      rw [hc] at hns
      simp [isPySpace] at hns
  | none =>
    have hstnil : st = [] := List.getLast?_eq_none_iff.mp hlast
    subst hstnil
    refine ⟨' ', ?_, by decide⟩
    rw [show ('[' :: (ts ++ ']' :: ' ' :: ([] : List Char)))
        = (('[' :: ts) ++ [']']) ++ [' '] by simp, List.getLast?_append]
    rfl

theorem joinWith_newline_getLast (lines : List (List Char))
    (hl : ∀ l ∈ lines, ∃ c0, l.getLast? = some c0 ∧ c0 ≠ '\n') (c : Char)
    (h : (joinWith ['\n'] lines).getLast? = some c) : c ≠ '\n' := by
  induction lines with
  | nil => simp [joinWith] at h
  | cons l ls ih =>
    cases ls with
    | nil =>
      simp only [joinWith] at h
      obtain ⟨c0, hc0, hne⟩ := hl l (List.mem_cons_self _ _)
      rw [hc0] at h
      have hcc : c0 = c := by simpa using h
      subst hcc
      exact hne
    | cons l2 ls2 =>
      obtain ⟨c2, hc2, _⟩ := hl l2 (List.mem_cons_of_mem _ (List.mem_cons_self _ _))
      have hne2 : l2 ≠ [] := by
        intro hnil
        rw [hnil] at hc2
        simp at hc2
      have hJ : joinWith ['\n'] (l2 :: ls2) ≠ [] := joinWith_ne_nil _ l2 ls2 hne2
      rw [show joinWith ['\n'] (l :: l2 :: ls2)
          = l ++ (['\n'] ++ joinWith ['\n'] (l2 :: ls2)) by simp [joinWith]] at h
      rw [List.getLast?_append, List.getLast?_append] at h
      cases hJlast : (joinWith ['\n'] (l2 :: ls2)).getLast? with
      | none => exact absurd (List.getLast?_eq_none_iff.mp hJlast) hJ
      | some cJ =>
        rw [hJlast, Option.or_some, Option.or_some] at h
        have hcc : cJ = c := by simpa using h
        subst hcc
        exact ih (fun l0 hl0 => hl l0 (List.mem_cons_of_mem _ hl0)) hJlast

/-- Claim C6: Timestamped-mode formatting renders one "[T] text" line per
entry in order, with T the timestamp conversion of the entry's start and the
text trimmed, joins the lines with single newlines, and never ends in a
newline. -/
theorem timestamped_mode_formatting :
    (∀ (entries : List TranscriptEntry) (cs : Option Int),
      format_transcript entries true cs = .str (joinWith ['\n'] (entries.map fun e =>
        '[' :: (seconds_to_timestamp e.start ++ ']' :: ' ' :: pyStrip e.text)))) ∧
    (∀ (entries : List TranscriptEntry) (cs : Option Int) (s : List Char),
      format_transcript entries true cs = .str s → s.getLast? ≠ some '\n') := by
  have hmain : ∀ (entries : List TranscriptEntry) (cs : Option Int),
      format_transcript entries true cs = .str (joinWith ['\n'] (entries.map fun e =>
        '[' :: (seconds_to_timestamp e.start ++ ']' :: ' ' :: pyStrip e.text))) := by
    intro entries cs
    cases cs with
    | none => rfl
    | some c =>
      simp [format_transcript]
  refine ⟨hmain, ?_⟩
  intro entries cs s h
  rw [hmain entries cs] at h
  have hs : joinWith ['\n'] (entries.map fun e =>
      '[' :: (seconds_to_timestamp e.start ++ ']' :: ' ' :: pyStrip e.text)) = s := by
    simpa using h
  subst hs
  intro hL
  refine joinWith_newline_getLast _ ?_ '\n' hL rfl
  intro l hml
  obtain ⟨e, _, rfl⟩ := List.mem_map.mp hml
  exact line_getLast_exists _ _ (fun c1 hc1 => pyStrip_getLast_not_space _ _ hc1)

/-- Witness for C6: the no-trailing-newline statement applied at a concrete
one-entry transcript, its hypothesis discharged by evaluating the
formatter. -/
theorem timestamped_mode_formatting_witness :
    ("[01:01] hi".toList).getLast? ≠ some '\n' := by
  apply timestamped_mode_formatting.2 [⟨61, 1, " hi ".toList⟩] none
  rw [timestamped_mode_formatting.1 [⟨61, 1, " hi ".toList⟩] none]
  simp only [List.map_cons, List.map_nil]
  rw [show seconds_to_timestamp ((61:ℚ)) = "01:01".toList by
    rw [seconds_to_timestamp_eq_spec 61 (by norm_num), show ⌊(61:ℚ)⌋ = 61 by norm_num]
    decide]
  decide

theorem pySlice_eq_drop_take (s : List Char) (a cs : Int) (ha : 0 ≤ a) (hcs : 0 < cs) :
    pySlice s a (a + cs) = (s.drop a.toNat).take cs.toNat := by
  simp only [pySlice]
  rw [if_neg (by omega), if_neg (by omega)]
  by_cases hlen : a ≤ (s.length : Int)
  · rw [min_eq_left hlen]
    by_cases hend : a + cs ≤ (s.length : Int)
    · rw [min_eq_left hend]
      congr 1
      omega
    · rw [min_eq_right (by omega)]
      have h1 : (s.drop a.toNat).length ≤ ((s.length : Int) - a).toNat := by
        simp only [List.length_drop]
        omega
      have h2 : (s.drop a.toNat).length ≤ cs.toNat := by
        simp only [List.length_drop]
        omega
      rw [List.take_of_length_le h1, List.take_of_length_le h2]
  · rw [min_eq_right (by omega), min_eq_right (by omega)]
    have hdrop : s.drop a.toNat = [] := List.drop_eq_nil_of_le (by omega)
    rw [hdrop]
    simp

theorem chunks_loop_eq (s : List Char) (cs : Int) (hcs : 0 < cs) :
    ∀ (n : ℕ) (a : Int), 0 ≤ a → s.length - a.toNat ≤ n →
      (pyRange a (s.length : Int) cs).map (fun i => pySlice s i (i + cs)) =
        chunksOf cs.toNat (s.drop a.toNat) := by
  intro n
  induction n with
  | zero =>
    intro a ha hle
    rw [pyRange.eq_def, dif_pos hcs, dif_neg (by omega), List.map_nil]
    have hdrop : s.drop a.toNat = [] := List.drop_eq_nil_of_le (by omega)
    rw [hdrop, chunksOf.eq_def]
    simp
  | succ n ih =>
    intro a ha hle
    by_cases hlt : a < (s.length : Int)
    · have harg1 : (0:ℤ) ≤ a + cs := by omega
      have harg2 : s.length - (a + cs).toNat ≤ n := by omega
      rw [pyRange.eq_def, dif_pos hcs, dif_pos hlt, List.map_cons,
        ih (a + cs) harg1 harg2, pySlice_eq_drop_take s a cs ha hcs]
      conv_rhs => rw [chunksOf.eq_def]
      rw [if_neg (by simp only [List.length_drop]; omega)]
      congr 1
      rw [List.drop_drop]
      have hidx : (a + cs).toNat = a.toNat + cs.toNat := by omega
      rw [hidx]
    · rw [pyRange.eq_def, dif_pos hcs, dif_neg hlt, List.map_nil]
      have hdrop : s.drop a.toNat = [] := List.drop_eq_nil_of_le (by omega)
      rw [hdrop, chunksOf.eq_def]
      simp

theorem pyChunks_pos (s : List Char) (cs : Int) (h : 0 < cs) :
    pyChunks cs s = chunksOf cs.toNat s := by
  unfold pyChunks
  have := chunks_loop_eq s cs h s.length 0 le_rfl (by omega)
  simpa using this

theorem pyChunks_neg (s : List Char) (cs : Int) (h : cs < 0) : pyChunks cs s = [] := by
  unfold pyChunks
  rw [pyRange.eq_def, dif_neg (by omega), dif_pos h, dif_neg (by omega)]
  rfl

/-- Counterexample to claim C7 as stated: the Chunker is not applied only for
positive chunk sizes — in Plain mode the concrete negative chunk size -5 also
produces chunked output (an empty chunk list, since Python's
`range(0, len, -5)` is empty). -/
theorem chunker_positive_only_counterexample :
    format_transcript [⟨0, 0, "abcdefgh".toList⟩] false (some (-5)) =
      FormattedOutput.chunks [] ∧ (-5 : ℤ) < 0 := by
  constructor
  · simp only [format_transcript]
    rw [if_pos ⟨by decide, trivial⟩, pyChunks_neg _ _ (by decide)]
  · decide

/-- Claim C7, amended: the Chunker never applies together with timestamps and
only in Plain mode, but it applies for every nonzero (not only positive)
chunk size: for positive chunk_size it yields the consecutive,
non-overlapping slices of exactly chunk_size characters in left-to-right
order with only the final slice possibly shorter (chunk size 5 on "abcdefgh"
gives ["abcde", "fgh"]); for a negative chunk size it yields an empty chunk
list. -/
theorem chunker_amended :
    (∀ (entries : List TranscriptEntry) (cs : Int),
      format_transcript entries true (some cs) = format_transcript entries true none) ∧
    (∀ (s : List Char) (cs : Int), 0 < cs → pyChunks cs s = chunksOf cs.toNat s) ∧
    (∀ (s : List Char) (cs : Int), cs < 0 → pyChunks cs s = []) ∧
    (∀ entries : List TranscriptEntry,
      format_transcript entries false (some 0) = format_transcript entries false none) ∧
    (∀ entries : List TranscriptEntry, ∀ cs : Int, cs ≠ 0 →
      format_transcript entries false (some cs) = .chunks (pyChunks cs
        (pyStrip (collapseWS (joinWith [' '] (entries.map fun e => pyStrip e.text)))))) ∧
    pyChunks 5 "abcdefgh".toList = ["abcde".toList, "fgh".toList] := by
  refine ⟨?_, pyChunks_pos, pyChunks_neg, ?_, ?_, ?_⟩
  · intro entries cs
    simp [format_transcript]
  · intro entries
    simp [format_transcript]
  · intro entries cs hcs
    simp only [format_transcript]
    rw [if_pos ⟨hcs, trivial⟩]
    simp
  · rw [pyChunks_pos _ _ (by decide)]
    rw [chunksOf.eq_def]
    norm_num
    rw [chunksOf.eq_def]
    norm_num
    rw [chunksOf.eq_def]
    decide

/-- Witness for the amended C7: the positive-chunk-size statement applied at
chunk size 5 on "abcdefgh", its hypothesis discharged by evaluation. -/
theorem chunker_amended_witness :
    (0:ℤ) < 5 ∧ pyChunks 5 "abcdefgh".toList = chunksOf (5:ℤ).toNat "abcdefgh".toList :=
  ⟨by decide, chunker_amended.2.1 "abcdefgh".toList 5 (by decide)⟩

theorem mem_toDigitsCore_ten (f : ℕ) : ∀ (n : ℕ) (ds : List Char) (c : Char),
    c ∈ Nat.toDigitsCore 10 f n ds → c ∈ ds ∨ ∃ m, m < 10 ∧ c = Nat.digitChar m := by
  induction f with
  | zero =>
    intro n ds c h
    exact Or.inl h
  | succ f ih =>
    intro n ds c h
    simp only [Nat.toDigitsCore] at h
    split at h
    · rcases List.mem_cons.mp h with h1 | h2
      · exact Or.inr ⟨n % 10, Nat.mod_lt _ (by norm_num), h1⟩
      · exact Or.inl h2
    · rcases ih (n / 10) ((n % 10).digitChar :: ds) c h with h1 | h2
      · rcases List.mem_cons.mp h1 with h3 | h4
        · exact Or.inr ⟨n % 10, Nat.mod_lt _ (by norm_num), h3⟩
        · exact Or.inl h4
      · exact Or.inr h2

theorem natChars_ne_slash (i : ℕ) (c : Char) (h : c ∈ natChars i) : c ≠ '/' := by
  unfold natChars Nat.toDigits at h
  rcases mem_toDigitsCore_ten (i + 1) i [] c h with h0 | ⟨m, hm, rfl⟩
  · simp at h0
  · interval_cases m <;> decide

theorem findIdx?_eq_none_of_not (p : Char → Bool) (l : List Char)
    (h : ∀ c ∈ l, p c = false) : ∀ i, l.findIdx? p i = none := by
  induction l with
  | nil => intro i; rfl
  | cons x xs ih =>
    intro i
    simp only [List.findIdx?]
    rw [h x (List.mem_cons_self _ _)]
    simpa using ih (fun c hc => h c (List.mem_cons_of_mem _ hc)) (i + 1)

theorem rfindChar_of_not_mem (c : Char) (s : List Char) (h : ∀ x ∈ s, x ≠ c) :
    rfindChar c s = -1 := by
  unfold rfindChar
  rw [findIdx?_eq_none_of_not _ _ (fun x hx => by
    have := h x (List.mem_reverse.mp hx)
    simpa using this) 0]

theorem rfindChar_append_txt (front : List Char) :
    rfindChar '.' (front ++ ".txt".toList) = (front.length : Int) := by
  unfold rfindChar
  rw [List.reverse_append, show (".txt".toList).reverse = ['t', 'x', 't', '.'] from by decide]
  simp only [List.findIdx?]
  rw [if_neg (by decide), if_neg (by decide), if_neg (by decide), if_pos (by decide)]
  simp only [List.length_append, show (".txt".toList).length = 4 from rfl]
  omega

theorem splitext_append_txt (front : List Char) (hslash : ∀ x ∈ front, x ≠ '/')
    (hsome : front.any (fun c => c != '.') = true) :
    splitext (front ++ ".txt".toList) = (front, ".txt".toList) := by
  unfold splitext
  rw [rfindChar_append_txt]
  rw [rfindChar_of_not_mem '/' (front ++ ".txt".toList) (by
    intro x hx
    rcases List.mem_append.mp hx with h1 | h2
    · exact hslash x h1
    · rw [show ".txt".toList = ['.', 't', 'x', 't'] from rfl] at h2
      rcases List.mem_cons.mp h2 with h3 | h4
      · subst h3; decide
      rcases List.mem_cons.mp h4 with h5 | h6
      · subst h5; decide
      rcases List.mem_cons.mp h6 with h7 | h8
      · subst h7; decide
      rcases List.mem_cons.mp h8 with h9 | h10
      · subst h9; decide
      · simp at h10)]
  rw [if_pos (by omega)]
  rw [show ((front.length : ℕ) : Int).toNat = front.length from Int.toNat_natCast _]
  rw [show ((-1 : Int) + 1).toNat = 0 from by decide]
  rw [List.take_left, List.drop_left, List.drop_zero]
  rw [if_pos hsome]

/-- Counterexample to claim C8 as stated: with two chunks and no explicit
output path, the code first builds `transcript_chunk_1_{vid}.txt` and then
inserts `_chunk_1` again before the extension, so the chunk-1 filename is
`transcript_chunk_1_abc12345678_chunk_1.txt`, not the claimed
`transcript_chunk_1_abc12345678.txt`. -/
theorem chunk_filename_counterexample :
    chunk_filename none "abc12345678".toList 2 1 =
      "transcript_chunk_1_abc12345678_chunk_1.txt".toList ∧
    "transcript_chunk_1_abc12345678_chunk_1.txt".toList ≠
      "transcript_chunk_1_abc12345678.txt".toList := by
  constructor
  · decide
  · decide

/-- Claim C8, amended: unchunked with no -o the saved name is
`youtube_transcript_{video_id}_{timestamp}.txt`; chunked output only gains the
`_chunk_{i}` suffix when there is more than one chunk, in which case chunk i
is written to `{base}_chunk_{i}{ext}` where base/ext split the explicit -o
path when one is given, and split the default name
`transcript_chunk_{i}_{video_id}.txt` when -o is absent (giving
`transcript_chunk_{i}_{video_id}_chunk_{i}.txt`); a single chunk is written
to the -o path itself, or to `transcript_chunk_{i}_{video_id}.txt`. -/
theorem output_filenames_amended :
    (∀ vid now : List Char, save_to_file_name none vid now =
      "youtube_transcript_".toList ++ vid ++ '_' :: (now ++ ".txt".toList)) ∧
    (∀ (o vid : List Char) (n i : ℕ), o ≠ [] → 1 < n →
      chunk_filename (some o) vid n i =
        (splitext o).1 ++ "_chunk_".toList ++ (natChars i ++ (splitext o).2)) ∧
    (∀ (o vid : List Char) (i : ℕ), o ≠ [] →
      chunk_filename (some o) vid 1 i = o) ∧
    (∀ (vid : List Char) (i : ℕ),
      chunk_filename none vid 1 i =
        "transcript_chunk_".toList ++ natChars i ++ '_' :: (vid ++ ".txt".toList)) ∧
    (∀ (vid : List Char) (n i : ℕ), 1 < n → (∀ x ∈ vid, x ≠ '/') →
      chunk_filename none vid n i =
        ("transcript_chunk_".toList ++ natChars i ++ '_' :: vid) ++
          ("_chunk_".toList ++ (natChars i ++ ".txt".toList))) := by
  refine ⟨fun vid now => rfl, ?_, ?_, ?_, ?_⟩
  · intro o vid n i ho hn
    simp only [chunk_filename]
    rw [if_pos hn, if_neg (show ¬(o.isEmpty = true) by simp [List.isEmpty_iff, ho])]
  · intro o vid i ho
    simp only [chunk_filename]
    rw [if_neg (show ¬((1:ℕ) < 1) by omega),
      if_neg (show ¬(o.isEmpty = true) by simp [List.isEmpty_iff, ho])]
  · intro vid i
    simp only [chunk_filename]
    rw [if_neg (show ¬((1:ℕ) < 1) by omega)]
    rfl
  · intro vid n i hn hv
    simp only [chunk_filename]
    rw [if_pos hn]
    have hdef : default_chunk_filename i vid =
        ("transcript_chunk_".toList ++ natChars i ++ '_' :: vid) ++ ".txt".toList := by
      simp [default_chunk_filename]
    rw [hdef]
    have hsl : ∀ x ∈ "transcript_chunk_".toList ++ natChars i ++ '_' :: vid, x ≠ '/' := by
      intro x hx
      rcases List.mem_append.mp hx with h12 | h3
      · rcases List.mem_append.mp h12 with h1 | h2
        · have hh : ∀ y ∈ "transcript_chunk_".toList, y ≠ '/' := by decide
          exact hh x h1
        · exact natChars_ne_slash i x h2
      · rcases List.mem_cons.mp h3 with h5 | h6
        · subst h5; decide
        · exact hv x h6
    have hsome : ("transcript_chunk_".toList ++ natChars i ++ '_' :: vid).any
        (fun c => c != '.') = true := by
      rw [List.any_append, List.any_append,
        show ("transcript_chunk_".toList).any (fun c => c != '.') = true from by decide]
      simp
    rw [splitext_append_txt _ hsl hsome]
    simp [List.append_assoc]

/-- Witness for the amended C8: the default-name multi-chunk rule applied at
video id "abc12345678" with 2 chunks, hypotheses discharged by evaluation. -/
theorem output_filenames_amended_witness :
    (1:ℕ) < 2 ∧ chunk_filename none "abc12345678".toList 2 1 =
      ("transcript_chunk_".toList ++ natChars 1 ++ '_' :: "abc12345678".toList) ++
        ("_chunk_".toList ++ (natChars 1 ++ ".txt".toList)) :=
  ⟨by decide, output_filenames_amended.2.2.2.2 "abc12345678".toList 2 1 (by decide) (by decide)⟩
